import Mathlib

/-
Verification development for the LR-QAOA QPU benchmarking repository.
Python floats are modelled as exact rationals; numpy/scipy library stages
whose outputs the scripts consume opaquely (the seeded shuffle bootstrap of
the FC pipeline, the Student-t CDF) enter the model as explicit parameters.
-/

/-! Association-list model of a Python dict (unique keys, insertion order). -/

def aget {α β : Type} [DecidableEq α] (k : α) : List (α × β) → Option β
  | [] => none
  | (k0, v) :: t => if k0 = k then some v else aget k t

def aset {α β : Type} [DecidableEq α] (k : α) (v : β) : List (α × β) → List (α × β)
  | [] => [(k, v)]
  | (k0, v0) :: t => if k0 = k then (k, v) :: t else (k0, v0) :: aset k v t

def aremove {α β : Type} [DecidableEq α] (k : α) : List (α × β) → List (α × β)
  | [] => []
  | (k0, v0) :: t => if k0 = k then t else (k0, v0) :: aremove k t

def keyCount {α β : Type} [DecidableEq α] (k : α) (l : List (α × β)) : Nat :=
  l.countP (fun e => decide (e.1 = k))

/-! Numeric helpers mirroring the numpy calls used by the scripts. -/

/-- Evaluation of a list comprehension whose body may raise: any failure
aborts the whole comprehension. -/
def mapO {α β : Type} (f : α → Option β) : List α → Option (List β)
  | [] => some []
  | a :: t =>
    match f a, mapO f t with
    | some b, some bs => some (b :: bs)
    | _, _ => none

/-- Mean of a list, as np.mean computes it (sum divided by length). -/
def npMean (l : List ℚ) : ℚ := l.sum / l.length

/-- Python max and np.max over a list: none models the raised error on an
empty list. -/
def pyMax : List ℚ → Option ℚ
  | [] => none
  | a :: l => some (l.foldl max a)

/-- np.argmax and list.index(max(l)): first index attaining the maximum;
none models the error on an empty list. -/
def npArgmax (l : List ℚ) : Option Nat :=
  (pyMax l).map (fun m => l.findIdx (fun a => decide (a = m)))

/-- Floor of a rational as an integer. -/
def ratFloor (q : ℚ) : ℤ := Int.fdiv q.num q.den

/-- Round-half-to-even on a rational, the rounding Python round() performs. -/
def roundHalfEven (q : ℚ) : ℤ :=
  let n := ratFloor q
  let frac := q - n
  if frac < 1/2 then n
  else if 1/2 < frac then n + 1
  else if n % 2 = 0 then n else n + 1

/-- Python round(x, 3). -/
def pyRound3 (q : ℚ) : ℚ := (roundHalfEven (q * 1000) : ℚ) / 1000

/-! Fully-connected (FC) pipeline model, from process_fc_experiments in
generate_json_data.py. -/

/-- Statistics block of a processed FC entry. The HPC augmentation path
stores null for t_score and p_value, so both are Option-valued. -/
structure FCStats where
  t_score : Option ℚ
  p_value : Option ℚ
  significant : Bool
deriving DecidableEq, Repr

/-- Processed FC entry, one per (backend, qubit count). r_vs_p is absent in
HPC-sourced entries. -/
structure FCEntry where
  r_eff : ℚ
  r_max_qpu : ℚ
  p_eff : Option Nat
  rb_mean : ℚ
  rb_std3 : ℚ
  rb_threshold : ℚ
  statistics : FCStats
  shots : Nat
  r_vs_p : Option (List Nat × List ℚ)
  source : Option String
deriving DecidableEq, Repr

/-- Raw FC record of one (backend, qubit count) as the script consumes it.
rr p i is postprocessing[Deltas[0]][p][i] at key r; sample0 is the outcome
histogram counts of samples[Deltas[0]][ps[0]]; randMeanAvg and randMeanStd
are the mean and standard deviation of the 50 seeded-bootstrap resample
means (the numpy RNG stage, an external input to the arithmetic modelled
here). -/
structure FCRaw where
  ps : List Nat
  sections : Nat
  rr : Nat → Nat → ℚ
  sample0 : List Nat
  randMeanAvg : ℚ
  randMeanStd : ℚ

/-- HPC-augmentation inputs: same bootstrap outputs recomputed from the
ibm_torino record, plus the ideal ratio from the HPC result file. -/
structure HPCRaw where
  sample0 : List Nat
  randMeanAvg : ℚ
  randMeanStd : ℚ
  rHPC : ℚ

/-- Best-section scan for the r_vs_p curve: starting from best 0 and the
empty list, replace the kept section whenever a section with a strictly
larger maximum appears. Failure (none) models np.max on an empty list. -/
def bestMaxGo (ps : List Nat) (rr : Nat → Nat → ℚ) (acc : ℚ × List ℚ) :
    List Nat → Option (ℚ × List ℚ)
  | [] => some acc
  | i :: t =>
    match pyMax (ps.map (fun p => rr p i)) with
    | none => none
    | some m =>
      bestMaxGo ps rr (if m > acc.1 then (m, ps.map (fun p => rr p i)) else acc) t

def bestMaxSection (sections : Nat) (ps : List Nat) (rr : Nat → Nat → ℚ) :
    Option (ℚ × List ℚ) :=
  bestMaxGo ps rr ((0 : ℚ), ([] : List ℚ)) (List.range sections)

/-- One (backend, qubit count) unit of the FC pipeline; tcdf is the
Student-t CDF with 49 degrees of freedom (a scipy call, passed in as a
function). none models any exception, caught and skipped by the caller. -/
def processFCUnit (tcdf : ℚ → ℚ) (d : FCRaw) : Option FCEntry :=
  let shots := d.sample0.sum
  let y1 := d.randMeanAvg
  let y2 := 3 * d.randMeanStd
  match mapO (fun p => pyMax ((List.range d.sections).map (fun i => d.rr p i))) d.ps with
  | none => none
  | some secMaxes =>
  match pyMax secMaxes with
  | none => none
  | some rMax =>
  match (npArgmax secMaxes).bind (fun idx => d.ps.get? idx) with
  | none => none
  | some pEff =>
  match bestMaxSection d.sections d.ps d.rr with
  | none => none
  | some best =>
  let tScore := (rMax - y1) / d.randMeanStd
  let pValue := 1 - tcdf tScore
  let rEff := (rMax - (y1 + y2)) / (1 - (y1 + y2))
  some {
    r_eff := rEff
    r_max_qpu := rMax
    p_eff := some pEff
    rb_mean := y1
    rb_std3 := y2
    rb_threshold := y1 + y2
    statistics := {
      t_score := some tScore
      p_value := some pValue
      significant := decide (pValue < 1/1000) }
    shots := shots
    r_vs_p := some (d.ps, best.2)
    source := none }

/-- HPC augmentation entry: ratio from the simulation file, null statistics,
significant forced true, tagged HPC_simulation. -/
def processHPCUnit (d : HPCRaw) : FCEntry :=
  let y1 := d.randMeanAvg
  let y2 := 3 * d.randMeanStd
  { r_eff := (d.rHPC - (y1 + y2)) / (1 - (y1 + y2))
    r_max_qpu := d.rHPC
    p_eff := none
    rb_mean := y1
    rb_std3 := y2
    rb_threshold := y1 + y2
    statistics := { t_score := none, p_value := none, significant := true }
    shots := d.sample0.sum
    r_vs_p := none
    source := some "HPC_simulation" }

/-- Whole FC run over the per-unit load results (none marks a failed load,
logged and skipped), followed by the HPC augmentation units stored under the
qasm_simulator key. Every successfully processed unit is written. -/
def processFCAll (tcdf : ℚ → ℚ) (units : List (String × Nat × Option FCRaw))
    (hpcUnits : List (Nat × Option HPCRaw)) : List (String × Nat × FCEntry) :=
  units.filterMap (fun u => (u.2.2.bind (processFCUnit tcdf)).map (fun e => (u.1, u.2.1, e))) ++
  hpcUnits.filterMap (fun u => u.2.map (fun d => ("qasm_simulator", u.1, processHPCUnit d)))

/-- The total_datapoints field of fc_summary.json counts every stored
entry. -/
def fcTotalDatapoints (entries : List (String × Nat × FCEntry)) : Nat :=
  entries.length

/-- Dashboard load_fc_results r map: keeps (backend, nq, r_eff) exactly for
the entries whose significant flag is set. -/
def fcSignificantMap (entries : List (String × Nat × FCEntry)) :
    List (String × Nat × ℚ) :=
  entries.filterMap (fun u =>
    if u.2.2.statistics.significant then some (u.1, u.2.1, u.2.2.r_eff) else none)

/-- Reading of the p_value field of an entry as the condition p_value below
one thousandth: false when the field is null. -/
def pvLt (o : Option ℚ) : Prop :=
  match o with
  | some pv => pv < 1/1000
  | none => False

instance (o : Option ℚ) : Decidable (pvLt o) := by
  cases o <;> simp [pvLt] <;> infer_instance

/-! 1D-chain models: the 5-qubit generator path of generate_1d_chain_json.py,
the 100-qubit path shared with process_1d_chain_experiments of
generate_json_data.py, and the flat-map pipeline with the torino variant
handling. -/

/-- Processed 1D-chain per-backend entry. random_r is none where the
producing path stores no such field. -/
structure Entry1D where
  qubits : Nat
  p_values : List Nat
  r_values : List ℚ
  max_r : ℚ
  optimal_p : Nat
  random_r : Option ℚ
deriving DecidableEq, Repr

/-- Raw 5-qubit record as the 5q generator and the patch utility consume it:
secKeys are the keys of postprocessing[Deltas[0]][ps[0]], rr p k the ratio of
section k at depth p, randomR the random-baseline scalar already resolved
with its 0.667 fallback, and random the raw [value, count] rows of the
random block when present (patch utility only). -/
structure Raw5q where
  ps : List Nat
  secKeys : List Nat
  rr : Nat → Nat → ℚ
  randomR : ℚ
  random : Option (List (ℚ × Nat))

/-- One iteration of the best-section-by-mean scan: replace the kept
section when this section has a strictly larger mean. -/
def bmStep (ps : List Nat) (rr : Nat → Nat → ℚ) (acc : ℚ × Option (List ℚ))
    (k : Nat) : ℚ × Option (List ℚ) :=
  let res := ps.map (fun p => rr p k)
  if npMean res > acc.1 then (npMean res, some res) else acc

/-- Best-section-by-mean scan shared by the 5q generator and the patch
utility: starting from best_mean 0 and best_sec None, replace whenever a
section with a strictly larger mean appears. -/
def bestMeanSec (secKeys : List Nat) (ps : List Nat) (rr : Nat → Nat → ℚ) :
    ℚ × Option (List ℚ) :=
  secKeys.foldl (bmStep ps rr) ((0 : ℚ), (none : Option (List ℚ)))

/-- One backend of the 5q generator: none models the exception raised when
best_sec stays None (or the depth list is empty), caught per backend. The
generator rounds every stored ratio to three decimals. -/
def build5qEntry (d : Raw5q) : Option Entry1D :=
  match (bestMeanSec d.secKeys d.ps d.rr).2 with
  | none => none
  | some best =>
    match pyMax best with
    | none => none
    | some mx =>
      match npArgmax best with
      | none => none
      | some idx =>
        match d.ps.get? idx with
        | some pstar =>
          some { qubits := 5, p_values := d.ps, r_values := best.map pyRound3,
                 max_r := pyRound3 mx, optimal_p := pstar,
                 random_r := some (pyRound3 d.randomR) }
        | none => none

/-- The 5q generator loop: per-backend failures are caught, logged and
skipped, the loop continues. -/
def generate5q (loads : List (String × Option Raw5q)) : List (String × Entry1D) :=
  loads.filterMap (fun u => (u.2.bind build5qEntry).map (fun e => (u.1, e)))

/-- Raw 100-qubit record as process_1d_chain_experiments consumes it: pkeys
the keys of postprocessing[1], rr p the ratio of section 0 at depth p. -/
structure Raw1D where
  pkeys : List Nat
  rr : Nat → ℚ

/-- One backend of the flat 100-qubit pipeline path. -/
def build100Entry (d : Raw1D) : Option Entry1D :=
  let rs := d.pkeys.map d.rr
  match pyMax rs with
  | none => none
  | some mx =>
    match npArgmax rs with
    | none => none
    | some idx =>
      match d.pkeys.get? idx with
      | some pstar =>
        some { qubits := 100, p_values := d.pkeys, r_values := rs, max_r := mx,
               optimal_p := pstar, random_r := none }
      | none => none

/-- Value stored under a top-level key of 1d_chain_processed.json in the
flat shape: a backend entry, or the shared ibm_brisbane random-baseline
block. -/
inductive ChainVal
  | entry (e : Entry1D)
  | baseline (mean std3 lower upper : ℚ)
deriving DecidableEq, Repr

/-- The twelve backends of the flat 1D-chain pipeline, in loop order. -/
def chainNames : List String :=
  ["ibm_boston", "ibm_marrakesh", "ibm_fez", "ibm_torino",
   "ibm_brisbane", "ibm_sherbrooke", "ibm_kyiv", "ibm_nazca",
   "ibm_kyoto", "ibm_osaka", "ibm_brussels", "ibm_strasbourg"]

/-- The random-baseline insertion performed inside the ibm_brisbane
iteration when its record carries a random block; rb holds the bootstrap
mean and three standard deviations. -/
def rbEntries (rb : Option (ℚ × ℚ)) : List (String × ChainVal) :=
  match rb with
  | some yv => [("random_baseline", ChainVal.baseline yv.1 yv.2 (yv.1 - yv.2) (yv.1 + yv.2))]
  | none => []

/-- The per-backend loop of process_1d_chain_experiments: failed loads are
skipped, entries are appended in loop order, and the brisbane iteration may
also append the shared random_baseline key. -/
def chainLoop (load : String → Option Raw1D) (rb : Option (ℚ × ℚ)) :
    List String → List (String × ChainVal)
  | [] => []
  | b :: rest =>
    (match (load b).bind build100Entry with
     | none => []
     | some e =>
       (b, ChainVal.entry e) :: (if b = "ibm_brisbane" then rbEntries rb else [])) ++
    chainLoop load rb rest

/-- The flat 1D-chain pipeline: run the loop, add an ibm_torino-v1 entry when
the v1 variant file loads, then pop any ibm_torino key into ibm_torino-v0.
The pop is guarded only by the presence of the base key, not by the v1
file. -/
def process1DChain (load : String → Option Raw1D) (loadV1 : Option Raw1D)
    (rb : Option (ℚ × ℚ)) : List (String × ChainVal) :=
  let base := chainLoop load rb chainNames
  let withV1 :=
    match loadV1.bind build100Entry with
    | some e => aset "ibm_torino-v1" (ChainVal.entry e) base
    | none => base
  match aget "ibm_torino" withV1 with
  | some cv => aset "ibm_torino-v0" cv (aremove "ibm_torino" withV1)
  | none => withV1

/-! Incremental patch utility, from add_originq_to_1d.py. -/

/-- Expansion of the [value, count] random rows into the weighted value
list, as the scripts build rand_data. -/
def expandRows (rows : List (ℚ × Nat)) : List ℚ :=
  rows.flatMap (fun vc => List.replicate vc.2 vc.1)

/-- The patch utility bootstrap state after some rounds: the current array
(mutated in place by np.random.shuffle) paired with the recorded means of
its first 1000 elements. The shuffle argument is the ambient numpy RNG,
which the script never seeds. -/
def bootState (shuffle : Nat → List ℚ → List ℚ) (iters : Nat)
    (d0 : List ℚ) : List ℚ × List ℚ :=
  (List.range iters).foldl (fun st i =>
    let d := shuffle i st.1
    (d, st.2 ++ [npMean (d.take 1000)])) (d0, ([] : List ℚ))

/-- The list of recorded bootstrap means. -/
def bootstrapMeans (shuffle : Nat → List ℚ → List ℚ) (iters : Nat)
    (d0 : List ℚ) : List ℚ :=
  (bootState shuffle iters d0).2

/-- The whole patch script: find the best-mean section, build the
originq_wukong entry (with random_r from the unseeded bootstrap when the
record carries a random block) and write that single key into the loaded
JSON. Errors at the marked points are uncaught and abort the script. -/
def patchScript (shuffle : Nat → List ℚ → List ℚ)
    (ex : List (String × Entry1D)) (raw : Raw5q) :
    Except String (List (String × Entry1D)) :=
  match (bestMeanSec raw.secKeys raw.ps raw.rr).2 with
  | none => Except.error "TypeError: NoneType is not iterable"
  | some best =>
    match pyMax best with
    | none => Except.error "ValueError: empty sequence"
    | some mx =>
      match npArgmax best with
      | none => Except.error "ValueError: empty sequence"
      | some idx =>
        match raw.ps.get? idx with
        | some pstar =>
          Except.ok (aset "originq_wukong"
            { qubits := 5, p_values := raw.ps, r_values := best, max_r := mx,
              optimal_p := pstar,
              random_r := raw.random.map
                (fun rows => npMean (bootstrapMeans shuffle 100 (expandRows rows))) } ex)
        | none => Except.error "IndexError"

/-! Native-layout extraction, from process_native_layout_experiments. -/

/-- One postprocessing[delta][p] cell: a dict possibly holding integer
section keys and direct property keys, or a non-dict object indexed by
property name. -/
inductive PPCell
  | dictCell (secs : List (Nat × List (String × ℚ))) (props : List (String × ℚ))
  | otherCell (props : List (String × ℚ))
deriving Repr

/-- Property access on a cell, as the fallback branches perform it. -/
def cellProp (c : PPCell) (prop : String) : Option ℚ :=
  match c with
  | .dictCell _ props => aget prop props
  | .otherCell props => aget prop props

/-- Section-0 access on a cell; indexing a non-dict by 0 is an error. -/
def cellSec0Prop (c : PPCell) (prop : String) : Option ℚ :=
  match c with
  | .dictCell secs _ => (aget 0 secs).bind (fun m => aget prop m)
  | .otherCell _ => none

/-- The native-layout r_values extraction: probe the first-depth cell for an
explicit section index 0, else fall back to direct property access. none
models the per-backend exception, caught and skipped. -/
def extractNL (pp : Nat → PPCell) (ps : List Nat) (prop : String) :
    Option (List ℚ) :=
  match ps with
  | [] => none
  | p0 :: _ =>
    match pp p0 with
    | .dictCell secs _ =>
      if (aget 0 secs).isSome then
        mapO (fun p => cellSec0Prop (pp p) prop) ps
      else
        mapO (fun p => cellProp (pp p) prop) ps
    | .otherCell _ => mapO (fun p => cellProp (pp p) prop) ps

/-! Dashboard loaders, from dashboard.py. -/

/-- Load failure kinds: a missing file, or any read/parse error. -/
inductive LoadErr
  | missingFile
  | parseError (msg : String)
deriving DecidableEq, Repr

/-- Inline messages the dashboard surfaces instead of failing hard. -/
inductive UIMsg
  | warning (s : String)
  | errorMsg (s : String)
deriving DecidableEq, Repr

/-- Rendering of a caught exception into message text. -/
def errText : LoadErr → String
  | .missingFile => "No such file or directory"
  | .parseError m => m

/-- Processed native-layout per-backend entry. -/
structure NLVal where
  qubits : Nat
  p_values : List Nat
  r_values : List ℚ
  max_r : ℚ
  optimal_p : Nat
  has_random : Bool
  random_r : Option ℚ
deriving DecidableEq, Repr

/-- The nested 1d_chain_processed.json shape the dashboard loader reads. -/
structure Chain1DJson where
  fiveQ : List (String × Entry1D)
  hundredQ : List (String × Entry1D)
deriving DecidableEq, Repr

/-- load_1d_chain_results: on success warn when both groups are empty; on
any failure surface an inline error and return the empty default shape. -/
def load1DChainResults (attempt : Except LoadErr Chain1DJson) :
    Chain1DJson × List UIMsg :=
  match attempt with
  | .ok d =>
    (d, if d.fiveQ.isEmpty && d.hundredQ.isEmpty
        then [UIMsg.warning "Loaded empty data structure"] else [])
  | .error e =>
    (⟨[], []⟩, [UIMsg.errorMsg ("Error loading 1D chain data: " ++ errText e)])

/-- load_nl_results: on success warn when empty; on any failure surface an
inline error and return the empty default map. -/
def loadNLResults (attempt : Except LoadErr (List (String × NLVal))) :
    List (String × NLVal) × List UIMsg :=
  match attempt with
  | .ok d =>
    (d, if d.isEmpty then [UIMsg.warning "Loaded empty native layout data"] else [])
  | .error e =>
    ([], [UIMsg.errorMsg ("Error loading native layout data: " ++ errText e)])

/-- load_fc_results: on success build the significant-only r map; the two
handlers differ in their debug text but both leave the r map empty and
return an empty fc_data. -/
def loadFCResults (attempt : Except LoadErr (List (String × Nat × FCEntry))) :
    List (String × Nat × ℚ) × List String × List (String × Nat × FCEntry) :=
  match attempt with
  | .ok d => (fcSignificantMap d, ["OK Loaded JSON data"], d)
  | .error .missingFile =>
    ([], ["ERR JSON file not found: " ++ errText .missingFile], [])
  | .error (.parseError m) =>
    ([], ["ERR Error loading JSON: " ++ m, "ERR Traceback"], [])

/-! Problem-instance builder, from wmaxcut_docplex in utils.py. -/

/-- Insertion step of an ascending sort of vertex labels. -/
def insertSorted (a : Nat) : List Nat → List Nat
  | [] => [a]
  | b :: t => if a ≤ b then a :: b :: t else b :: insertSorted a t

/-- Ascending sort of the vertex labels, as sorted(G.nodes). -/
def sortNodes (l : List Nat) : List Nat := l.foldr insertSorted []

/-- The translate table: 0-based rank of a vertex label under ascending
sort. -/
def translateRank (nodes : List Nat) (v : Nat) : Nat :=
  (sortNodes nodes).indexOf v

/-- Objective of the built Max-Cut model evaluated at an assignment x of the
binary variables: the negated sum over edges (i, j, w) of
w times (x_i (1 - x_j) + x_j (1 - x_i)), with variables indexed through the
translate table. -/
def wmaxcutObjective (nodes : List Nat) (edges : List (Nat × Nat × ℚ))
    (x : Nat → ℚ) : ℚ :=
  -(edges.map (fun e =>
      let xi := x (translateRank nodes e.1)
      let xj := x (translateRank nodes e.2.1)
      e.2.2 * (xi * (1 - xj) + xj * (1 - xi)))).sum

/-! Concrete inputs used by witnesses and counterexamples. -/

/-- Student-t CDF stub returning one half everywhere (the value scipy
returns at t equal to 0). -/
def tcdfHalf : ℚ → ℚ := fun _ => 1/2

/-- FC raw record whose maximum ratio is nine tenths, with bootstrap mean
one half and bootstrap standard deviation one thirtieth (so y2 is one
tenth). -/
def d075 : FCRaw :=
  { ps := [1, 2, 3], sections := 1,
    rr := fun p _ => if p = 1 then 1/5 else if p = 2 then 1/2 else 9/10,
    sample0 := [10, 20], randMeanAvg := 1/2, randMeanStd := 1/30 }

/-- The FC entry the pipeline produces from d075 under tcdfHalf. -/
def eC : FCEntry :=
  { r_eff := 3/4, r_max_qpu := 9/10, p_eff := some 3,
    rb_mean := 1/2, rb_std3 := 1/10, rb_threshold := 3/5,
    statistics := { t_score := some 12, p_value := some (1/2), significant := false },
    shots := 30, r_vs_p := some ([1, 2, 3], [1/5, 1/2, 9/10]), source := none }

/-- FC raw record whose every ratio equals the bootstrap mean one half, so
the t score is 0 and the CDF value one half is scipy's exact value there:
the significance test genuinely fails on this record. -/
def dHalf : FCRaw :=
  { ps := [1, 2, 3], sections := 1, rr := fun _ _ => 1/2,
    sample0 := [10, 20], randMeanAvg := 1/2, randMeanStd := 1/30 }

/-- The FC entry the pipeline produces from dHalf: t score 0, p value one
half, significant false, and the real r_eff of minus one quarter still
written. -/
def eHalf : FCEntry :=
  { r_eff := -(1/4), r_max_qpu := 1/2, p_eff := some 1,
    rb_mean := 1/2, rb_std3 := 1/10, rb_threshold := 3/5,
    statistics := { t_score := some 0, p_value := some (1/2), significant := false },
    shots := 30, r_vs_p := some ([1, 2, 3], [1/2, 1/2, 1/2]), source := none }

/-- HPC augmentation inputs with ideal ratio nine tenths. -/
def hpcC : HPCRaw :=
  { sample0 := [5], randMeanAvg := 1/2, randMeanStd := 1/30, rHPC := 9/10 }

/-- Raw 5-qubit record with three sections whose per-depth means are three
tenths, seven tenths and five tenths. -/
def raw5qC : Raw5q :=
  { ps := [1, 2, 3], secKeys := [0, 1, 2],
    rr := fun p k => (p : ℚ)/10 + (if k = 0 then 1/10 else if k = 1 then 1/2 else 3/10),
    randomR := 667/1000, random := none }

/-- Raw 5-qubit record in which every section mean is zero. -/
def raw5qZero : Raw5q :=
  { ps := [1, 2], secKeys := [0, 1], rr := fun _ _ => 0,
    randomR := 667/1000, random := none }

/-- Raw 100-qubit chain record used for the torino scenarios. -/
def rawT : Raw1D := { pkeys := [1, 2], rr := fun p => (p : ℚ)/10 }

/-- Load function for which only the ibm_torino base record exists. -/
def loadTorinoOnly : String → Option Raw1D :=
  fun b => if b = "ibm_torino" then some rawT else none

/-- Shuffle stream that leaves the array unchanged. -/
def shufA : Nat → List ℚ → List ℚ := fun _ d => d

/-- Shuffle stream that reverses the array on the first round only. -/
def shufB : Nat → List ℚ → List ℚ := fun i d => if i = 0 then d.reverse else d

/-- Random rows of 600 zeros and 600 ones: the expanded array is longer than
the fixed 1000-element resample, so its head mean is shuffle sensitive. -/
def rowsC : List (ℚ × Nat) := [(0, 600), (1, 600)]

/-- Raw record for the patch utility carrying the rowsC random block. -/
def raw5qR : Raw5q :=
  { ps := [1], secKeys := [0], rr := fun _ _ => 7/10,
    randomR := 667/1000, random := some rowsC }

/-- FC raw record with two sections: section 0 has the larger mean, section
1 the larger maximum. -/
def d2sec : FCRaw :=
  { ps := [1, 2], sections := 2,
    rr := fun p k => if k = 0 then (if p = 1 then 1/2 else 3/10)
                     else (if p = 1 then 1/10 else 3/5),
    sample0 := [4], randMeanAvg := 1/2, randMeanStd := 1/30 }

/-- The 5q entry the generator produces from raw5qC: section 1 in full. -/
def e5C : Entry1D :=
  { qubits := 5, p_values := [1, 2, 3], r_values := [3/5, 7/10, 4/5],
    max_r := 4/5, optimal_p := 3, random_r := some (667/1000) }

/-- The 100q entry built from rawT. -/
def eT0 : Entry1D :=
  { qubits := 100, p_values := [1, 2], r_values := [1/10, 1/5], max_r := 1/5,
    optimal_p := 2, random_r := none }

/-- Patch-utility output entry under the identity shuffle stream. -/
def entryPatchA : Entry1D :=
  { qubits := 5, p_values := [1], r_values := [7/10], max_r := 7/10,
    optimal_p := 1, random_r := some (2/5) }

/-- Patch-utility output entry under the reverse-once shuffle stream. -/
def entryPatchB : Entry1D :=
  { qubits := 5, p_values := [1], r_values := [7/10], max_r := 7/10,
    optimal_p := 1, random_r := some (3/5) }

/-! General helper lemmas. -/

theorem mapO_eq_map {α β : Type} (f : α → Option β) (g : α → β) :
    ∀ l : List α, (∀ a ∈ l, f a = some (g a)) → mapO f l = some (l.map g)
  | [], _ => rfl
  | a :: t, h => by
    have ht := mapO_eq_map f g t (fun x hx => h x (List.mem_cons_of_mem a hx))
    simp [mapO, h a (List.mem_cons_self a t), ht]

theorem processFCUnit_spec (tcdf : ℚ → ℚ) (d : FCRaw) (e : FCEntry)
    (h : processFCUnit tcdf d = some e) :
    e.r_eff = (e.r_max_qpu - (e.rb_mean + e.rb_std3)) / (1 - (e.rb_mean + e.rb_std3)) ∧
    (e.statistics.significant = true ↔ pvLt e.statistics.p_value) ∧
    e.statistics.p_value.isSome = true ∧ e.source = none := by
  simp only [processFCUnit] at h
  split at h
  · exact absurd h (by simp)
  split at h
  · exact absurd h (by simp)
  split at h
  · exact absurd h (by simp)
  split at h
  · exact absurd h (by simp)
  rw [Option.some_inj] at h
  subst h
  refine ⟨rfl, ?_, rfl, rfl⟩
  simp [pvLt]

theorem processHPCUnit_spec (d : HPCRaw) :
    (processHPCUnit d).r_eff =
      ((processHPCUnit d).r_max_qpu - ((processHPCUnit d).rb_mean + (processHPCUnit d).rb_std3)) /
        (1 - ((processHPCUnit d).rb_mean + (processHPCUnit d).rb_std3)) ∧
    (processHPCUnit d).statistics.significant = true ∧
    (processHPCUnit d).statistics.p_value = none :=
  ⟨rfl, rfl, rfl⟩

theorem mem_processFCAll {tcdf : ℚ → ℚ} {units : List (String × Nat × Option FCRaw)}
    {hpcUnits : List (Nat × Option HPCRaw)} {u : String × Nat × FCEntry}
    (hu : u ∈ processFCAll tcdf units hpcUnits) :
    (∃ d, processFCUnit tcdf d = some u.2.2) ∨ (∃ d, processHPCUnit d = u.2.2) := by
  rcases List.mem_append.1 hu with hmem | hmem
  · obtain ⟨a, _, hfa⟩ := List.mem_filterMap.1 hmem
    cases haa : a.2.2 with
    | none => rw [haa] at hfa; exact absurd hfa (by simp)
    | some dd =>
      rw [haa, Option.some_bind] at hfa
      cases he : processFCUnit tcdf dd with
      | none => rw [he] at hfa; exact absurd hfa (by simp)
      | some e =>
        rw [he] at hfa
        simp only [Option.map_some', Option.some_inj] at hfa
        subst hfa
        exact Or.inl ⟨dd, he⟩
  · obtain ⟨a, _, hfa⟩ := List.mem_filterMap.1 hmem
    cases haa : a.2 with
    | none => rw [haa] at hfa; exact absurd hfa (by simp)
    | some dd =>
      rw [haa] at hfa
      simp only [Option.map_some', Option.some_inj] at hfa
      subst hfa
      exact Or.inr ⟨dd, rfl⟩

theorem fcRun_d075 :
    processFCAll tcdfHalf [("ibm_fez", 5, some d075)] [] = [("ibm_fez", 5, eC)] := by
  norm_num [processFCAll, processFCUnit, tcdfHalf, d075, eC, mapO, pyMax, npArgmax,
    bestMaxSection, bestMaxGo, List.range_succ, max_def, List.findIdx, List.findIdx.go,
    List.filterMap_cons, Option.some_bind, Option.map_some']

/-! Claim theorems. -/

/-- C1: every entry the FC pipeline writes, on the main path and on the HPC
augmentation path alike, carries r_eff equal to
(r_max - (y1 + y2)) / (1 - (y1 + y2)) where y1 is the stored bootstrap mean
and y2 the stored three bootstrap standard deviations; at bootstrap mean one
half, three standard deviations one tenth and maximum ratio nine tenths the
pipeline yields r_eff exactly three quarters. -/
theorem c1_r_eff_formula :
    (∀ (tcdf : ℚ → ℚ) (units : List (String × Nat × Option FCRaw))
       (hpcUnits : List (Nat × Option HPCRaw)) (u : String × Nat × FCEntry),
       u ∈ processFCAll tcdf units hpcUnits →
       u.2.2.r_eff = (u.2.2.r_max_qpu - (u.2.2.rb_mean + u.2.2.rb_std3)) /
         (1 - (u.2.2.rb_mean + u.2.2.rb_std3))) ∧
    (processFCAll tcdfHalf [("ibm_fez", 5, some d075)] []).map
        (fun u => (u.2.2.r_max_qpu, u.2.2.rb_mean, u.2.2.rb_std3, u.2.2.r_eff))
      = [(9/10, 1/2, 1/10, 3/4)] := by
  constructor
  · intro tcdf units hpc u hu
    rcases mem_processFCAll hu with ⟨d, hd⟩ | ⟨d, hd⟩
    · exact (processFCUnit_spec tcdf d u.2.2 hd).1
    · rw [← hd]; exact (processHPCUnit_spec d).1
  · rw [fcRun_d075]; norm_num [eC]

/-- C1 witness: the formula instantiated at the concrete pipeline run on
d075. -/
theorem c1_r_eff_formula_witness :
    eC.r_eff = (eC.r_max_qpu - (eC.rb_mean + eC.rb_std3)) / (1 - (eC.rb_mean + eC.rb_std3)) :=
  c1_r_eff_formula.1 tcdfHalf [("ibm_fez", 5, some d075)] [] ("ibm_fez", 5, eC)
    (by rw [fcRun_d075]; exact List.mem_singleton.2 rfl)

theorem fcUnit_d075 : processFCUnit tcdfHalf d075 = some eC := by
  norm_num [processFCUnit, tcdfHalf, d075, eC, mapO, pyMax, npArgmax,
    bestMaxSection, bestMaxGo, List.range_succ, max_def, List.findIdx, List.findIdx.go]

theorem fcUnit_dHalf : processFCUnit tcdfHalf dHalf = some eHalf := by
  norm_num [processFCUnit, tcdfHalf, dHalf, eHalf, mapO, pyMax, npArgmax,
    bestMaxSection, bestMaxGo, List.range_succ, max_def, List.findIdx, List.findIdx.go]

theorem fcRun_dHalf :
    processFCAll tcdfHalf [("ibm_fez", 5, some dHalf)] [] = [("ibm_fez", 5, eHalf)] := by
  simp [processFCAll, fcUnit_dHalf]

/-- C2 (amended): entries written by the main FC path satisfy significant
iff p_value below one thousandth, while entries written by the HPC
augmentation path carry a null p_value together with significant forced
true. -/
theorem c2_significant_iff :
    (∀ (tcdf : ℚ → ℚ) (d : FCRaw) (e : FCEntry), processFCUnit tcdf d = some e →
      (e.statistics.significant = true ↔ pvLt e.statistics.p_value)) ∧
    (∀ h : HPCRaw, (processHPCUnit h).statistics.significant = true ∧
      (processHPCUnit h).statistics.p_value = none) :=
  ⟨fun tcdf d e h => (processFCUnit_spec tcdf d e h).2.1, fun _ => ⟨rfl, rfl⟩⟩

/-- C2 witness: the main-path equivalence instantiated at the concrete run
on d075. -/
theorem c2_significant_iff_witness :
    eC.statistics.significant = true ↔ pvLt eC.statistics.p_value :=
  c2_significant_iff.1 tcdfHalf d075 eC fcUnit_d075

/-- C2 counterexample: a run containing an HPC augmentation entry violates
the claimed equivalence, since that entry is significant with a null
p_value. -/
theorem c2_hpc_cex :
    ¬ (∀ u ∈ processFCAll tcdfHalf [] [(30, some hpcC)],
        (u.2.2.statistics.significant = true ↔ pvLt u.2.2.statistics.p_value)) := by
  intro h
  have hm : ("qasm_simulator", 30, processHPCUnit hpcC) ∈
      processFCAll tcdfHalf [] [(30, some hpcC)] := by
    simp [processFCAll]
  have h2 := h _ hm
  simp [processHPCUnit, pvLt] at h2

/-- C3 (amended): the FC pipeline writes every successfully processed
(backend, qubit count) entry into the processed output regardless of
significance; it is the dashboard FC loader whose r map retains a
combination exactly when its entry is significant, carrying that entry's
r_eff and never a placeholder. -/
theorem c3_significance_filter :
    (∀ (tcdf : ℚ → ℚ) (units : List (String × Nat × Option FCRaw))
       (hpcUnits : List (Nat × Option HPCRaw)) (b : String) (n : Nat) (d : FCRaw)
       (e : FCEntry), (b, n, some d) ∈ units → processFCUnit tcdf d = some e →
       (b, n, e) ∈ processFCAll tcdf units hpcUnits) ∧
    (∀ (entries : List (String × Nat × FCEntry)) (u : String × Nat × ℚ),
       u ∈ fcSignificantMap entries →
       ∃ e : FCEntry, (u.1, u.2.1, e) ∈ entries ∧ e.statistics.significant = true ∧
         u.2.2 = e.r_eff) ∧
    (∀ (entries : List (String × Nat × FCEntry)) (b : String) (n : Nat) (e : FCEntry),
       (b, n, e) ∈ entries → e.statistics.significant = true →
       (b, n, e.r_eff) ∈ fcSignificantMap entries) := by
  refine ⟨?_, ?_, ?_⟩
  · intro tcdf units hpc b n d e hmem he
    exact List.mem_append.2 (Or.inl (List.mem_filterMap.2 ⟨(b, n, some d), hmem, by simp [he]⟩))
  · intro entries u hu
    obtain ⟨a, ha, hfa⟩ := List.mem_filterMap.1 hu
    by_cases hs : a.2.2.statistics.significant = true
    · rw [if_pos hs] at hfa
      obtain rfl : (a.1, a.2.1, a.2.2.r_eff) = u := Option.some_inj.1 hfa
      exact ⟨a.2.2, ha, hs, rfl⟩
    · rw [if_neg hs] at hfa
      exact absurd hfa (by simp)
  · intro entries b n e hmem hs
    exact List.mem_filterMap.2 ⟨(b, n, e), hmem, by simp [hs]⟩

/-- C3 witness: the retention of a processed entry instantiated at the
concrete run on dHalf. -/
theorem c3_significance_filter_witness :
    ("ibm_fez", 5, eHalf) ∈ processFCAll tcdfHalf [("ibm_fez", 5, some dHalf)] [] :=
  c3_significance_filter.1 tcdfHalf [("ibm_fez", 5, some dHalf)] [] "ibm_fez" 5 dHalf eHalf
    (List.mem_singleton.2 rfl) fcUnit_dHalf

/-- C3 counterexample: on a record whose every ratio equals the bootstrap
mean (t score 0, where the CDF value one half is exact), the significance
test fails, yet the run writes the entry into the processed output with its
r_eff instead of omitting it, and the summary datapoint count includes
it. -/
theorem c3_nonsignificant_cex :
    ((processFCAll tcdfHalf [("ibm_fez", 5, some dHalf)] []).all
        (fun u => u.2.2.statistics.significant)) = false ∧
    fcTotalDatapoints (processFCAll tcdfHalf [("ibm_fez", 5, some dHalf)] []) = 1 := by
  refine ⟨?_, ?_⟩ <;> rw [fcRun_dHalf] <;> simp [eHalf, fcTotalDatapoints]

/-- C4: for a two-vertex graph with a single positive-weight edge, the built
Max-Cut model objective is minus the weight when the endpoints take
different binary values and zero when they take equal values. -/
theorem c4_maxcut_objective :
    ∀ (w : ℚ) (x : Nat → ℚ), 0 < w → (x 0 = 0 ∨ x 0 = 1) → (x 1 = 0 ∨ x 1 = 1) →
      ((x 0 ≠ x 1 → wmaxcutObjective [0, 1] [(0, 1, w)] x = -w) ∧
       (x 0 = x 1 → wmaxcutObjective [0, 1] [(0, 1, w)] x = 0)) := by
  intro w x hw h0 h1
  have ht0 : translateRank [0, 1] 0 = 0 := rfl
  have ht1 : translateRank [0, 1] 1 = 1 := rfl
  constructor
  · intro hne
    rcases h0 with h0 | h0 <;> rcases h1 with h1 | h1
    · exact absurd (h0.trans h1.symm) hne
    · simp [wmaxcutObjective, ht0, ht1, h0, h1]
    · simp [wmaxcutObjective, ht0, ht1, h0, h1]
    · exact absurd (h0.trans h1.symm) hne
  · intro heq
    rcases h0 with h0 | h0 <;> rcases h1 with h1 | h1
    · simp [wmaxcutObjective, ht0, ht1, h0, h1]
    · rw [h0, h1] at heq; exact absurd heq (by norm_num)
    · rw [h0, h1] at heq; exact absurd heq (by norm_num)
    · simp [wmaxcutObjective, ht0, ht1, h0, h1]

/-- C4 witness: weight one and the assignment separating the two
vertices. -/
theorem c4_maxcut_objective_witness :
    wmaxcutObjective [0, 1] [(0, 1, (1 : ℚ))] (fun n => if n = 0 then 0 else 1) = -1 :=
  (c4_maxcut_objective 1 (fun n => if n = 0 then 0 else 1) one_pos
    (Or.inl rfl) (Or.inr rfl)).1 (by norm_num)

/-- C7: on records that differ only in nesting the per-depth cell under an
explicit section index 0 versus keying it directly by the property name,
the native-layout extraction returns the same r_values sequence, namely the
per-depth ratios themselves. -/
theorem c7_nesting_equiv :
    ∀ (ps : List Nat) (rv : Nat → ℚ), ps ≠ [] →
      extractNL (fun p => PPCell.dictCell [(0, [("r", rv p)])] []) ps "r"
          = extractNL (fun p => PPCell.dictCell [] [("r", rv p)]) ps "r" ∧
      extractNL (fun p => PPCell.dictCell [(0, [("r", rv p)])] []) ps "r"
          = some (ps.map rv) := by
  intro ps rv hps
  match ps, hps with
  | p0 :: rest, _ =>
    have hA : extractNL (fun p => PPCell.dictCell [(0, [("r", rv p)])] []) (p0 :: rest) "r"
        = some ((p0 :: rest).map rv) := by
      show mapO (fun p => cellSec0Prop (PPCell.dictCell [(0, [("r", rv p)])] []) "r") (p0 :: rest)
          = some ((p0 :: rest).map rv)
      exact mapO_eq_map _ rv _ (fun a _ => by simp [cellSec0Prop, aget])
    have hB : extractNL (fun p => PPCell.dictCell [] [("r", rv p)]) (p0 :: rest) "r"
        = some ((p0 :: rest).map rv) := by
      show mapO (fun p => cellProp (PPCell.dictCell [] [("r", rv p)]) "r") (p0 :: rest)
          = some ((p0 :: rest).map rv)
      exact mapO_eq_map _ rv _ (fun a _ => by simp [cellProp, aget])
    exact ⟨hA.trans hB.symm, hA⟩

/-- C7 witness: the equivalence instantiated at three depths. -/
theorem c7_nesting_equiv_witness :
    extractNL (fun p => PPCell.dictCell [(0, [("r", (p : ℚ)/10)])] []) [1, 2, 3] "r"
      = extractNL (fun p => PPCell.dictCell [] [("r", (p : ℚ)/10)]) [1, 2, 3] "r" :=
  (c7_nesting_equiv [1, 2, 3] (fun p => (p : ℚ)/10) (by simp)).1

/-- C9: every dashboard loader converts any load failure, a missing file and
a read or parse error alike, into an inline message plus its empty default
structure, so the rest of the view still renders. -/
theorem c9_loader_defaults :
    ∀ e : LoadErr,
      (load1DChainResults (Except.error e)).1 = ⟨[], []⟩ ∧
      (load1DChainResults (Except.error e)).2 =
        [UIMsg.errorMsg ("Error loading 1D chain data: " ++ errText e)] ∧
      (loadNLResults (Except.error e)).1 = [] ∧
      (loadNLResults (Except.error e)).2 =
        [UIMsg.errorMsg ("Error loading native layout data: " ++ errText e)] ∧
      (loadFCResults (Except.error e)).1 = [] ∧
      (loadFCResults (Except.error e)).2.2 = [] ∧
      (loadFCResults (Except.error e)).2.1 ≠ [] := by
  intro e
  cases e <;> exact ⟨rfl, rfl, rfl, rfl, rfl, rfl, by simp [loadFCResults]⟩

/-! Association-list lemmas. -/

theorem aget_aset_self {α β : Type} [DecidableEq α] (k : α) (v : β) :
    ∀ l : List (α × β), aget k (aset k v l) = some v
  | [] => by simp [aset, aget]
  | (k0, v0) :: t => by
    by_cases h : k0 = k
    · simp [aset, aget, h]
    · simp [aset, aget, h, aget_aset_self k v t]

theorem aget_aset_ne {α β : Type} [DecidableEq α] (k k2 : α) (v : β) (h : k ≠ k2) :
    ∀ l : List (α × β), aget k (aset k2 v l) = aget k l
  | [] => by
    have hk : k2 ≠ k := Ne.symm h
    simp [aset, aget, hk]
  | (k0, v0) :: t => by
    by_cases h0 : k0 = k2
    · subst h0
      have hk : k0 ≠ k := fun hh => h hh.symm
      simp [aset, aget, hk]
    · simp [aset, aget, h0, aget_aset_ne k k2 v h t]

theorem aget_aremove_ne {α β : Type} [DecidableEq α] (k k2 : α) (h : k ≠ k2) :
    ∀ l : List (α × β), aget k (aremove k2 l) = aget k l
  | [] => rfl
  | (k0, v0) :: t => by
    by_cases h0 : k0 = k2
    · subst h0
      have : k0 ≠ k := fun hh => h hh.symm
      simp [aremove, aget, this]
    · simp [aremove, aget, h0, aget_aremove_ne k k2 h t]

theorem aget_of_keyCount_zero {α β : Type} [DecidableEq α] (k : α) :
    ∀ l : List (α × β), keyCount k l = 0 → aget k l = none
  | [], _ => rfl
  | (k0, v0) :: t, h => by
    simp only [keyCount, List.countP_cons] at h
    by_cases h0 : k0 = k
    · exfalso
      rw [if_pos (by simp [h0])] at h
      omega
    · rw [if_neg (by simp [h0]), Nat.add_zero] at h
      simp only [aget, h0, if_false]
      exact aget_of_keyCount_zero k t h

theorem aget_aremove_self {α β : Type} [DecidableEq α] (k : α) :
    ∀ l : List (α × β), keyCount k l ≤ 1 → aget k (aremove k l) = none
  | [], _ => rfl
  | (k0, v0) :: t, h => by
    simp only [keyCount, List.countP_cons] at h
    by_cases h0 : k0 = k
    · simp only [aremove, h0, if_true]
      refine aget_of_keyCount_zero k t ?_
      rw [if_pos (by simp [h0])] at h
      simp only [keyCount]
      omega
    · rw [if_neg (by simp [h0]), Nat.add_zero] at h
      simp only [aremove, h0, if_false, aget]
      exact aget_aremove_self k t h

theorem keyCount_aset_ne {α β : Type} [DecidableEq α] (k k2 : α) (v : β) (h : k ≠ k2) :
    ∀ l : List (α × β), keyCount k (aset k2 v l) = keyCount k l
  | [] => by
    have hk : k2 ≠ k := Ne.symm h
    simp [aset, keyCount, List.countP_cons, hk]
  | (k0, v0) :: t => by
    by_cases h0 : k0 = k2
    · subst h0
      have hk : k0 ≠ k := fun hh => h hh.symm
      simp [aset, keyCount, List.countP_cons, hk]
    · have ih := keyCount_aset_ne k k2 v h t
      simp only [keyCount] at ih
      simp [aset, h0, keyCount, List.countP_cons, ih]

theorem keyCount_append {α β : Type} [DecidableEq α] (k : α) (l1 l2 : List (α × β)) :
    keyCount k (l1 ++ l2) = keyCount k l1 + keyCount k l2 := by
  simp [keyCount, List.countP_append]

/-! Lemmas on the 1D-chain loop. -/

theorem aget_rbEntries (k : String) (hk : k ≠ "random_baseline") (rb : Option (ℚ × ℚ)) :
    aget k (rbEntries rb) = none := by
  cases rb <;> simp [rbEntries, aget, Ne.symm hk]

theorem keyCount_rbEntries (k : String) (hk : k ≠ "random_baseline") (rb : Option (ℚ × ℚ)) :
    keyCount k (rbEntries rb) = 0 := by
  cases rb <;> simp [rbEntries, keyCount, List.countP_cons, Ne.symm hk]

theorem aget_append_of_none {α β : Type} [DecidableEq α] (k : α) {l1 : List (α × β)}
    (l2 : List (α × β)) (h : aget k l1 = none) : aget k (l1 ++ l2) = aget k l2 := by
  induction l1 with
  | nil => rfl
  | cons a t ih =>
    obtain ⟨k0, v0⟩ := a
    by_cases h0 : k0 = k
    · simp [aget, h0] at h
    · simp only [aget, h0, if_false, List.cons_append] at h ⊢
      exact ih h

theorem aget_chainLoop_ne (load : String → Option Raw1D) (rb : Option (ℚ × ℚ))
    (b k : String) (t : List String) (hbk : b ≠ k) (hk : k ≠ "random_baseline") :
    aget k (chainLoop load rb (b :: t)) = aget k (chainLoop load rb t) := by
  simp only [chainLoop]
  cases (load b).bind build100Entry with
  | none => simp
  | some e =>
    simp only [List.cons_append, aget, hbk, if_false]
    by_cases hb : b = "ibm_brisbane"
    · simp only [hb, if_true]
      exact aget_append_of_none k _ (aget_rbEntries k hk rb)
    · simp [hb]

theorem aget_chainLoop_notmem (load : String → Option Raw1D) (rb : Option (ℚ × ℚ))
    (k : String) : ∀ names : List String, k ∉ names → k ≠ "random_baseline" →
    aget k (chainLoop load rb names) = none
  | [], _, _ => rfl
  | b :: t, hmem, hk => by
    have hbk : b ≠ k := fun h => hmem (h ▸ List.mem_cons_self b t)
    rw [aget_chainLoop_ne load rb b k t hbk hk]
    exact aget_chainLoop_notmem load rb k t (fun h => hmem (List.mem_cons_of_mem b h)) hk

theorem aget_chainLoop_mem (load : String → Option Raw1D) (rb : Option (ℚ × ℚ))
    (k : String) (hk : k ≠ "random_baseline") :
    ∀ names : List String, names.Nodup → k ∈ names →
    aget k (chainLoop load rb names) = ((load k).bind build100Entry).map ChainVal.entry
  | [], _, hmem => absurd hmem (List.not_mem_nil k)
  | b :: t, hnd, hmem => by
    by_cases hbk : b = k
    · subst hbk
      have hnt : b ∉ t := (List.nodup_cons.1 hnd).1
      simp only [chainLoop]
      cases he : (load b).bind build100Entry with
      | none =>
        simp only [List.nil_append, Option.map_none']
        exact aget_chainLoop_notmem load rb b t hnt hk
      | some e => simp [aget]
    · have hmt : k ∈ t := by
        rcases List.mem_cons.1 hmem with h | h
        · exact absurd h.symm hbk
        · exact h
      rw [aget_chainLoop_ne load rb b k t hbk hk]
      exact aget_chainLoop_mem load rb k hk t (List.nodup_cons.1 hnd).2 hmt

theorem keyCount_chainLoop (load : String → Option Raw1D) (rb : Option (ℚ × ℚ))
    (k : String) (hk : k ≠ "random_baseline") :
    ∀ names : List String,
      keyCount k (chainLoop load rb names) ≤ names.countP (fun x => decide (x = k))
  | [] => Nat.le_refl 0
  | b :: t => by
    simp only [chainLoop, keyCount_append, List.countP_cons]
    have ih := keyCount_chainLoop load rb k hk t
    have hhead : keyCount k (match (load b).bind build100Entry with
        | none => []
        | some e =>
          (b, ChainVal.entry e) :: (if b = "ibm_brisbane" then rbEntries rb else [])) ≤
        (if decide (b = k) = true then 1 else 0) := by
      cases (load b).bind build100Entry with
      | none => simp [keyCount]
      | some e =>
        simp only [keyCount, List.countP_cons]
        by_cases hb : b = "ibm_brisbane"
        · simp only [hb, if_true]
          have := keyCount_rbEntries k hk rb
          simp only [keyCount] at this
          simp [this]
        · simp [hb, List.countP_nil]
    omega

/-! Rename behaviour of the flat 1D-chain pipeline. -/

theorem process1DChain_rename_base (load : String → Option Raw1D) (rb : Option (ℚ × ℚ))
    (e0 : Entry1D) (he0 : (load "ibm_torino").bind build100Entry = some e0) :
    aget "ibm_torino-v0" (process1DChain load none rb) = some (ChainVal.entry e0) ∧
    aget "ibm_torino" (process1DChain load none rb) = none := by
  have hbase : aget "ibm_torino" (chainLoop load rb chainNames) = some (ChainVal.entry e0) := by
    rw [aget_chainLoop_mem load rb "ibm_torino" (by decide) chainNames (by decide) (by decide),
      he0, Option.map_some']
  have hcount : keyCount "ibm_torino" (chainLoop load rb chainNames) ≤ 1 := by
    refine le_trans (keyCount_chainLoop load rb "ibm_torino" (by decide) chainNames) ?_
    decide
  simp only [process1DChain, Option.none_bind]
  rw [hbase]
  refine ⟨aget_aset_self _ _ _, ?_⟩
  rw [aget_aset_ne _ _ _ (by decide)]
  exact aget_aremove_self _ _ hcount

theorem process1DChain_rename_v1 (load : String → Option Raw1D) (dv1 : Raw1D)
    (rb : Option (ℚ × ℚ)) (e0 e1 : Entry1D)
    (he0 : (load "ibm_torino").bind build100Entry = some e0)
    (he1 : build100Entry dv1 = some e1) :
    aget "ibm_torino-v0" (process1DChain load (some dv1) rb) = some (ChainVal.entry e0) ∧
    aget "ibm_torino-v1" (process1DChain load (some dv1) rb) = some (ChainVal.entry e1) ∧
    aget "ibm_torino" (process1DChain load (some dv1) rb) = none := by
  have hbase : aget "ibm_torino" (chainLoop load rb chainNames) = some (ChainVal.entry e0) := by
    rw [aget_chainLoop_mem load rb "ibm_torino" (by decide) chainNames (by decide) (by decide),
      he0, Option.map_some']
  have hcount : keyCount "ibm_torino" (chainLoop load rb chainNames) ≤ 1 := by
    refine le_trans (keyCount_chainLoop load rb "ibm_torino" (by decide) chainNames) ?_
    decide
  simp only [process1DChain, Option.some_bind]
  rw [he1]
  have hw : aget "ibm_torino"
      (aset "ibm_torino-v1" (ChainVal.entry e1) (chainLoop load rb chainNames)) =
      some (ChainVal.entry e0) := by
    rw [aget_aset_ne _ _ _ (by decide)]
    exact hbase
  rw [hw]
  refine ⟨aget_aset_self _ _ _, ?_, ?_⟩
  · rw [aget_aset_ne _ _ _ (by decide), aget_aremove_ne _ _ (by decide)]
    exact aget_aset_self _ _ _
  · rw [aget_aset_ne _ _ _ (by decide)]
    refine aget_aremove_self _ _ ?_
    rw [keyCount_aset_ne _ _ _ (by decide)]
    exact hcount

theorem loadTorino_build : (loadTorinoOnly "ibm_torino").bind build100Entry = some eT0 := by
  norm_num [loadTorinoOnly, build100Entry, rawT, eT0, pyMax, npArgmax, max_def,
    List.findIdx, List.findIdx.go]

/-- C6 (amended): when the v1 variant record loads, the flat 1D-chain
pipeline output maps ibm_torino-v0 to the base entry and ibm_torino-v1 to
the variant entry with no ibm_torino key left; however the rename of the
base entry to ibm_torino-v0 is performed whenever the base entry exists,
regardless of the v1 file. -/
theorem c6_torino_rename :
    (∀ (load : String → Option Raw1D) (dv1 : Raw1D) (rb : Option (ℚ × ℚ)) (e0 e1 : Entry1D),
      (load "ibm_torino").bind build100Entry = some e0 →
      build100Entry dv1 = some e1 →
      aget "ibm_torino-v0" (process1DChain load (some dv1) rb) = some (ChainVal.entry e0) ∧
      aget "ibm_torino-v1" (process1DChain load (some dv1) rb) = some (ChainVal.entry e1) ∧
      aget "ibm_torino" (process1DChain load (some dv1) rb) = none) ∧
    (∀ (load : String → Option Raw1D) (rb : Option (ℚ × ℚ)) (e0 : Entry1D),
      (load "ibm_torino").bind build100Entry = some e0 →
      aget "ibm_torino-v0" (process1DChain load none rb) = some (ChainVal.entry e0) ∧
      aget "ibm_torino" (process1DChain load none rb) = none) :=
  ⟨fun load dv1 rb e0 e1 he0 he1 => process1DChain_rename_v1 load dv1 rb e0 e1 he0 he1,
   fun load rb e0 he0 => process1DChain_rename_base load rb e0 he0⟩

/-- C6 witness: the v1-present case instantiated at a concrete load
function. -/
theorem c6_torino_rename_witness :
    aget "ibm_torino-v0" (process1DChain loadTorinoOnly (some rawT) none)
      = some (ChainVal.entry eT0) ∧
    aget "ibm_torino-v1" (process1DChain loadTorinoOnly (some rawT) none)
      = some (ChainVal.entry eT0) ∧
    aget "ibm_torino" (process1DChain loadTorinoOnly (some rawT) none) = none :=
  c6_torino_rename.1 loadTorinoOnly rawT none eT0 eT0 loadTorino_build
    (by simpa using loadTorino_build)

/-- C6 counterexample: with no v1 variant record at all, the pipeline still
renames the loaded base entry to ibm_torino-v0, so the rename is not
performed exactly when the v1 file exists. -/
theorem c6_rename_cex :
    aget "ibm_torino-v0" (process1DChain loadTorinoOnly none none)
      = some (ChainVal.entry eT0) ∧
    aget "ibm_torino" (process1DChain loadTorinoOnly none none) = none :=
  process1DChain_rename_base loadTorinoOnly none eT0 loadTorino_build

/-! Best-section selection lemmas. -/

theorem roundHalfEven_intCast (n : ℤ) : roundHalfEven ((n : ℤ) : ℚ) = n := by
  have hf : ratFloor ((n : ℤ) : ℚ) = n := by
    simp [ratFloor, Rat.num_intCast, Rat.den_intCast]
  simp only [roundHalfEven, hf]
  rw [sub_self, if_pos (by norm_num)]

theorem pyRound3_exact (q : ℚ) (n : ℤ) (h : q * 1000 = (n : ℚ)) : pyRound3 q = q := by
  unfold pyRound3
  rw [h, roundHalfEven_intCast, ← h]
  field_simp

theorem bmStep_fold_spec (ps : List Nat) (rr : Nat → Nat → ℚ) :
    ∀ (keys : List Nat) (acc : ℚ × Option (List ℚ)),
      acc.1 ≤ (List.foldl (bmStep ps rr) acc keys).1 ∧
      (∀ k ∈ keys,
        npMean (ps.map (fun p => rr p k)) ≤ (List.foldl (bmStep ps rr) acc keys).1) ∧
      (List.foldl (bmStep ps rr) acc keys = acc ∨
        ∃ k ∈ keys, List.foldl (bmStep ps rr) acc keys =
          (npMean (ps.map (fun p => rr p k)), some (ps.map (fun p => rr p k)))) := by
  intro keys
  induction keys with
  | nil => intro acc; exact ⟨le_refl _, by simp, Or.inl rfl⟩
  | cons k t ih =>
    intro acc
    rw [List.foldl_cons]
    obtain ⟨ih1, ih2, ih3⟩ := ih (bmStep ps rr acc k)
    have hstep1 : acc.1 ≤ (bmStep ps rr acc k).1 := by
      by_cases h : npMean (ps.map (fun p => rr p k)) > acc.1
      · simp only [bmStep, if_pos h]
        exact le_of_lt h
      · simp only [bmStep, if_neg h]
        exact le_refl _
    have hstepk : npMean (ps.map (fun p => rr p k)) ≤ (bmStep ps rr acc k).1 := by
      by_cases h : npMean (ps.map (fun p => rr p k)) > acc.1
      · simp only [bmStep, if_pos h]
        exact le_refl _
      · simp only [bmStep, if_neg h]
        exact le_of_not_lt h
    refine ⟨le_trans hstep1 ih1, ?_, ?_⟩
    · intro j hj
      rcases List.mem_cons.1 hj with hj | hj
      · subst hj
        exact le_trans hstepk ih1
      · exact ih2 j hj
    · rcases ih3 with h3 | ⟨j, hj, h3⟩
      · rw [h3]
        by_cases h : npMean (ps.map (fun p => rr p k)) > acc.1
        · right
          exact ⟨k, List.mem_cons_self k t, by simp only [bmStep, if_pos h]⟩
        · left
          simp only [bmStep, if_neg h]
      · right
        exact ⟨j, List.mem_cons_of_mem k hj, h3⟩

theorem bestMeanSec_spec (secKeys ps : List Nat) (rr : Nat → Nat → ℚ) (l : List ℚ)
    (h : (bestMeanSec secKeys ps rr).2 = some l) :
    (∃ k ∈ secKeys, l = ps.map (fun p => rr p k)) ∧
    (∀ k ∈ secKeys, npMean (ps.map (fun p => rr p k)) ≤ npMean l) := by
  obtain ⟨h1, h2, h3⟩ := bmStep_fold_spec ps rr secKeys ((0 : ℚ), none)
  rw [bestMeanSec] at h
  rcases h3 with h3 | ⟨k, hk, h3⟩
  · rw [h3] at h
    exact absurd h (by simp)
  · rw [h3] at h
    have hl : l = ps.map (fun p => rr p k) := by simpa using h.symm
    refine ⟨⟨k, hk, hl⟩, ?_⟩
    intro j hj
    have hle := h2 j hj
    rw [h3] at hle
    rw [hl]
    simpa using hle

theorem bestMeanSec_none (secKeys ps : List Nat) (rr : Nat → Nat → ℚ)
    (h : ∀ k ∈ secKeys, npMean (ps.map (fun p => rr p k)) ≤ 0) :
    bestMeanSec secKeys ps rr = (0, none) := by
  rw [bestMeanSec]
  induction secKeys with
  | nil => rfl
  | cons k t ih =>
    rw [List.foldl_cons]
    have hk := h k (List.mem_cons_self k t)
    have hstep : bmStep ps rr ((0 : ℚ), (none : Option (List ℚ))) k = (0, none) := by
      simp only [bmStep]
      rw [if_neg (not_lt.2 hk)]
    rw [hstep]
    exact ih (fun j hj => h j (List.mem_cons_of_mem k hj))

theorem bestMaxGo_spec (ps : List Nat) (rr : Nat → Nat → ℚ) :
    ∀ (idxs : List Nat) (acc : ℚ × List ℚ) (v : ℚ) (l : List ℚ),
      bestMaxGo ps rr acc idxs = some (v, l) →
      acc.1 ≤ v ∧
      (l = acc.2 ∨ ∃ i ∈ idxs, l = ps.map (fun p => rr p i)) ∧
      (∀ i ∈ idxs, ∀ m, pyMax (ps.map (fun p => rr p i)) = some m → m ≤ v) ∧
      ((l = acc.2 ∧ v = acc.1) ∨ pyMax l = some v)
  | [], acc, v, l, h => by
    simp only [bestMaxGo, Option.some_inj] at h
    subst h
    exact ⟨le_refl _, Or.inl rfl, by simp, Or.inl ⟨rfl, rfl⟩⟩
  | i :: t, acc, v, l, h => by
    simp only [bestMaxGo] at h
    cases hpm : pyMax (ps.map (fun p => rr p i)) with
    | none =>
      rw [hpm] at h
      exact absurd h (by simp)
    | some m =>
      rw [hpm] at h
      obtain ⟨ih1, ih2, ih3, ih4⟩ := bestMaxGo_spec ps rr t _ v l h
      by_cases hm : m > acc.1
      · rw [if_pos hm] at ih1 ih2 ih4
        refine ⟨le_trans (le_of_lt hm) ih1, ?_, ?_, ?_⟩
        · rcases ih2 with h2 | ⟨j, hj, h2⟩
          · right
            exact ⟨i, List.mem_cons_self i t, h2⟩
          · right
            exact ⟨j, List.mem_cons_of_mem i hj, h2⟩
        · intro j hj m2 hm2
          rcases List.mem_cons.1 hj with hj | hj
          · subst hj
            rw [hpm] at hm2
            obtain rfl := Option.some_inj.1 hm2
            exact ih1
          · exact ih3 j hj m2 hm2
        · rcases ih4 with ⟨h4l, h4v⟩ | h4
          · right
            rw [h4l, h4v]
            exact hpm
          · right
            exact h4
      · rw [if_neg hm] at ih1 ih2 ih4
        refine ⟨ih1, ?_, ?_, ih4⟩
        · rcases ih2 with h2 | ⟨j, hj, h2⟩
          · left
            exact h2
          · right
            exact ⟨j, List.mem_cons_of_mem i hj, h2⟩
        · intro j hj m2 hm2
          rcases List.mem_cons.1 hj with hj | hj
          · subst hj
            rw [hpm] at hm2
            obtain rfl := Option.some_inj.1 hm2
            exact le_trans (le_of_not_lt hm) ih1
          · exact ih3 j hj m2 hm2

theorem bestMaxSection_spec (sections : Nat) (ps : List Nat) (rr : Nat → Nat → ℚ)
    (v : ℚ) (l : List ℚ) (h : bestMaxSection sections ps rr = some (v, l)) :
    (l = [] ∨ ∃ i < sections, l = ps.map (fun p => rr p i)) ∧
    (∀ i < sections, ∀ m, pyMax (ps.map (fun p => rr p i)) = some m → m ≤ v) ∧
    (l = [] ∨ pyMax l = some v) := by
  obtain ⟨h1, h2, h3, h4⟩ :=
    bestMaxGo_spec ps rr (List.range sections) ((0 : ℚ), ([] : List ℚ)) v l h
  refine ⟨?_, ?_, ?_⟩
  · rcases h2 with h2 | ⟨i, hi, h2⟩
    · left
      exact h2
    · right
      exact ⟨i, List.mem_range.1 hi, h2⟩
  · intro i hi m hm
    exact h3 i (List.mem_range.2 hi) m hm
  · rcases h4 with ⟨h4l, _⟩ | h4
    · left
      exact h4l
    · right
      exact h4

/-- C5: the best-section scans return one whole section, never an average:
the mean-based 5q scan returns a section whose mean dominates every section
mean, and on per-depth means of three tenths, seven tenths and five tenths
it yields section 1 in full; the max-based FC scan returns a section (or the
untouched empty initial value) whose maximum dominates every section
maximum, as the concrete two-section record shows. -/
theorem c5_best_section :
    (∀ (secKeys ps : List Nat) (rr : Nat → Nat → ℚ) (l : List ℚ),
      (bestMeanSec secKeys ps rr).2 = some l →
      (∃ k ∈ secKeys, l = ps.map (fun p => rr p k)) ∧
      (∀ k ∈ secKeys, npMean (ps.map (fun p => rr p k)) ≤ npMean l)) ∧
    build5qEntry raw5qC = some e5C ∧
    (∀ (sections : Nat) (ps : List Nat) (rr : Nat → Nat → ℚ) (v : ℚ) (l : List ℚ),
      bestMaxSection sections ps rr = some (v, l) →
      (l = [] ∨ ∃ i < sections, l = ps.map (fun p => rr p i)) ∧
      (∀ i < sections, ∀ m, pyMax (ps.map (fun p => rr p i)) = some m → m ≤ v) ∧
      (l = [] ∨ pyMax l = some v)) ∧
    (processFCUnit tcdfHalf d2sec).map (fun e => e.r_vs_p)
      = some (some ([1, 2], [1/10, 3/5])) := by
  refine ⟨bestMeanSec_spec, ?_, bestMaxSection_spec, ?_⟩
  · have hr1 : pyRound3 (3/5) = 3/5 := pyRound3_exact _ 600 (by norm_num)
    have hr2 : pyRound3 (7/10) = 7/10 := pyRound3_exact _ 700 (by norm_num)
    have hr3 : pyRound3 (4/5) = 4/5 := pyRound3_exact _ 800 (by norm_num)
    have hr4 : pyRound3 (667/1000) = 667/1000 := pyRound3_exact _ 667 (by norm_num)
    norm_num [build5qEntry, raw5qC, e5C, bestMeanSec, bmStep, npMean, pyMax, npArgmax,
      max_def, List.findIdx, List.findIdx.go, hr1, hr2, hr3, hr4]
  · norm_num [processFCUnit, d2sec, tcdfHalf, mapO, pyMax, npArgmax, bestMaxSection,
      bestMaxGo, List.range_succ, max_def, List.findIdx, List.findIdx.go]

/-- C5 witness: the general mean-path and max-path properties instantiated
at the concrete records raw5qC and d2sec. -/
theorem c5_best_section_witness :
    (∃ k ∈ raw5qC.secKeys, [(3 : ℚ)/5, 7/10, 4/5] =
        raw5qC.ps.map (fun p => raw5qC.rr p k)) ∧
    (∀ k ∈ raw5qC.secKeys,
      npMean (raw5qC.ps.map (fun p => raw5qC.rr p k)) ≤ npMean [(3 : ℚ)/5, 7/10, 4/5]) := by
  refine c5_best_section.1 raw5qC.secKeys raw5qC.ps raw5qC.rr _ ?_
  norm_num [bestMeanSec, bmStep, raw5qC, npMean]

/-- C10: when every section mean is at most zero, the best-mean scan keeps
its None initial value; the 5q generator then produces no entry for that
backend and continues (the raised error is caught per backend), while the
patch utility aborts with the uncaught error. -/
theorem c10_best_mean_totality :
    (∀ (secKeys ps : List Nat) (rr : Nat → Nat → ℚ),
      (∀ k ∈ secKeys, npMean (ps.map (fun p => rr p k)) ≤ 0) →
      (bestMeanSec secKeys ps rr).2 = none) ∧
    (∀ d : Raw5q, (∀ k ∈ d.secKeys, npMean (d.ps.map (fun p => d.rr p k)) ≤ 0) →
      build5qEntry d = none) ∧
    (∀ (b : String) (d : Raw5q) (rest : List (String × Option Raw5q)),
      (∀ k ∈ d.secKeys, npMean (d.ps.map (fun p => d.rr p k)) ≤ 0) →
      generate5q ((b, some d) :: rest) = generate5q rest) ∧
    (∀ (shuffle : Nat → List ℚ → List ℚ) (ex : List (String × Entry1D)) (d : Raw5q),
      (∀ k ∈ d.secKeys, npMean (d.ps.map (fun p => d.rr p k)) ≤ 0) →
      patchScript shuffle ex d = Except.error "TypeError: NoneType is not iterable") := by
  have hnone : ∀ (secKeys ps : List Nat) (rr : Nat → Nat → ℚ),
      (∀ k ∈ secKeys, npMean (ps.map (fun p => rr p k)) ≤ 0) →
      (bestMeanSec secKeys ps rr).2 = none := by
    intro secKeys ps rr h
    rw [bestMeanSec_none secKeys ps rr h]
  have hbuild : ∀ d : Raw5q,
      (∀ k ∈ d.secKeys, npMean (d.ps.map (fun p => d.rr p k)) ≤ 0) →
      build5qEntry d = none := by
    intro d h
    unfold build5qEntry
    rw [hnone d.secKeys d.ps d.rr h]
  refine ⟨hnone, hbuild, ?_, ?_⟩
  · intro b d rest h
    simp [generate5q, List.filterMap_cons, hbuild d h]
  · intro shuffle ex d h
    unfold patchScript
    rw [hnone d.secKeys d.ps d.rr h]

/-- C10 witness: the all-zero-section record makes the scan return None, the
generator skip the backend, and the patch script abort. -/
theorem c10_best_mean_totality_witness :
    (bestMeanSec raw5qZero.secKeys raw5qZero.ps raw5qZero.rr).2 = none ∧
    build5qEntry raw5qZero = none ∧
    generate5q [("originq_wukong", some raw5qZero)] = [] ∧
    patchScript shufA [] raw5qZero = Except.error "TypeError: NoneType is not iterable" := by
  have h : ∀ k ∈ raw5qZero.secKeys,
      npMean (raw5qZero.ps.map (fun p => raw5qZero.rr p k)) ≤ 0 := by
    intro k _
    norm_num [raw5qZero, npMean]
  exact ⟨c10_best_mean_totality.1 _ _ _ h, c10_best_mean_totality.2.1 _ h,
    (c10_best_mean_totality.2.2.1 "originq_wukong" raw5qZero [] h).trans rfl,
    c10_best_mean_totality.2.2.2 shufA [] _ h⟩

/-! Bootstrap lemmas for the patch utility. -/

theorem replicate_append_singleton {α : Type} (a : α) :
    ∀ n : Nat, List.replicate n a ++ [a] = List.replicate (n + 1) a
  | 0 => rfl
  | n + 1 => by
    rw [List.replicate_succ, List.cons_append, replicate_append_singleton a n]
    exact (List.replicate_succ a (n + 1)).symm

theorem bootState_succ (shuffle : Nat → List ℚ → List ℚ) (n : Nat) (d0 : List ℚ) :
    bootState shuffle (n + 1) d0 =
      (shuffle n (bootState shuffle n d0).1,
        (bootState shuffle n d0).2 ++
          [npMean ((shuffle n (bootState shuffle n d0).1).take 1000)]) := by
  unfold bootState
  rw [List.range_succ, List.foldl_append, List.foldl_cons, List.foldl_nil]

theorem bootState_shufA (d0 : List ℚ) :
    ∀ n : Nat, bootState shufA n d0 = (d0, List.replicate n (npMean (d0.take 1000)))
  | 0 => rfl
  | n + 1 => by
    rw [bootState_succ, bootState_shufA d0 n]
    simp only [shufA]
    rw [replicate_append_singleton]

theorem bootState_shufB (d0 : List ℚ) :
    ∀ n : Nat, 1 ≤ n →
      bootState shufB n d0 = (d0.reverse, List.replicate n (npMean (d0.reverse.take 1000)))
  | 0, h => absurd h (by omega)
  | 1, _ => by
    rw [bootState_succ]
    simp [bootState, shufB]
  | n + 2, _ => by
    rw [bootState_succ, bootState_shufB d0 (n + 1) (by omega)]
    have hs : ∀ x : List ℚ, shufB (n + 1) x = x := by
      intro x
      simp [shufB]
    simp [hs, replicate_append_singleton]

theorem npMean_replicate (n : Nat) (c : ℚ) (hn : n ≠ 0) :
    npMean (List.replicate n c) = c := by
  have hcast : (n : ℚ) ≠ 0 := Nat.cast_ne_zero.2 hn
  simp only [npMean, List.sum_replicate, List.length_replicate, nsmul_eq_mul]
  rw [mul_div_cancel_left₀ c hcast]

theorem expandRows_rowsC :
    expandRows rowsC = List.replicate 600 (0 : ℚ) ++ List.replicate 600 1 := by
  simp only [expandRows, rowsC, List.flatMap_cons, List.flatMap_nil, List.append_nil]

theorem take_head_rowsC :
    (List.replicate 600 (0 : ℚ) ++ List.replicate 600 1).take 1000
      = List.replicate 600 (0 : ℚ) ++ List.replicate 400 1 := by
  rw [List.take_append_eq_append_take,
    List.take_of_length_le (by rw [List.length_replicate]; omega),
    List.length_replicate, List.take_replicate]
  norm_num

theorem headMean_rowsC :
    npMean ((List.replicate 600 (0 : ℚ) ++ List.replicate 600 1).take 1000) = 2/5 := by
  rw [take_head_rowsC]
  simp only [npMean, List.sum_append, List.sum_replicate, List.length_append,
    List.length_replicate, smul_zero, nsmul_eq_mul]
  norm_num

theorem take_head_rowsC_rev :
    ((List.replicate 600 (0 : ℚ) ++ List.replicate 600 1).reverse).take 1000
      = List.replicate 600 (1 : ℚ) ++ List.replicate 400 0 := by
  rw [List.reverse_append, List.reverse_replicate, List.reverse_replicate,
    List.take_append_eq_append_take,
    List.take_of_length_le (by rw [List.length_replicate]; omega),
    List.length_replicate, List.take_replicate]
  norm_num

theorem headMean_rowsC_rev :
    npMean (((List.replicate 600 (0 : ℚ) ++ List.replicate 600 1).reverse).take 1000) = 3/5 := by
  rw [take_head_rowsC_rev]
  simp only [npMean, List.sum_append, List.sum_replicate, List.length_append,
    List.length_replicate, smul_zero, nsmul_eq_mul]
  norm_num

theorem bootstrapMeans_shufA (d0 : List ℚ) (n : Nat) :
    bootstrapMeans shufA n d0 = List.replicate n (npMean (d0.take 1000)) := by
  unfold bootstrapMeans
  rw [bootState_shufA]

theorem bootstrapMeans_shufB (d0 : List ℚ) (n : Nat) (hn : 1 ≤ n) :
    bootstrapMeans shufB n d0 = List.replicate n (npMean (d0.reverse.take 1000)) := by
  unfold bootstrapMeans
  rw [bootState_shufB d0 n hn]

theorem randA :
    npMean (bootstrapMeans shufA 100 (expandRows rowsC)) = 2/5 := by
  rw [expandRows_rowsC, bootstrapMeans_shufA, headMean_rowsC,
    npMean_replicate 100 (2/5) (by norm_num)]

theorem randB :
    npMean (bootstrapMeans shufB 100 (expandRows rowsC)) = 3/5 := by
  rw [expandRows_rowsC, bootstrapMeans_shufB _ 100 (by norm_num), headMean_rowsC_rev,
    npMean_replicate 100 (3/5) (by norm_num)]

theorem patchScript_raw5qR (shuffle : Nat → List ℚ → List ℚ) :
    patchScript shuffle [] raw5qR = Except.ok [("originq_wukong",
      { qubits := 5, p_values := [1], r_values := [7/10], max_r := 7/10, optimal_p := 1,
        random_r := some (npMean (bootstrapMeans shuffle 100 (expandRows rowsC))) })] := by
  have hbm : (bestMeanSec raw5qR.secKeys raw5qR.ps raw5qR.rr).2 = some [7/10] := by
    norm_num [bestMeanSec, bmStep, raw5qR, npMean]
  unfold patchScript
  rw [hbm]
  norm_num [pyMax, npArgmax, raw5qR, max_def, List.findIdx, List.findIdx.go, aset]

theorem patchA : patchScript shufA [] raw5qR = Except.ok [("originq_wukong", entryPatchA)] := by
  rw [patchScript_raw5qR shufA, randA]
  rfl

theorem patchB : patchScript shufB [] raw5qR = Except.ok [("originq_wukong", entryPatchB)] := by
  rw [patchScript_raw5qR shufB, randB]
  rfl

/-- C8 (amended): on success the patch utility writes exactly the single
originq_wukong key, leaving every other top-level key with its value from
the loaded JSON, and it is shuffle independent (hence idempotent across
invocations) whenever the raw record carries no random block; with a random
block the unseeded bootstrap can make random_r differ between invocations. -/
theorem c8_patch_frame :
    (∀ (shuffle : Nat → List ℚ → List ℚ) (ex : List (String × Entry1D)) (raw : Raw5q)
       (out : List (String × Entry1D)), patchScript shuffle ex raw = Except.ok out →
       (∀ k : String, k ≠ "originq_wukong" → aget k out = aget k ex) ∧
       (∃ e, aget "originq_wukong" out = some e)) ∧
    (∀ (s1 s2 : Nat → List ℚ → List ℚ) (ex : List (String × Entry1D)) (raw : Raw5q),
       raw.random = none → patchScript s1 ex raw = patchScript s2 ex raw) := by
  constructor
  · intro shuffle ex raw out h
    unfold patchScript at h
    split at h
    · exact absurd h (by simp)
    · split at h
      · exact absurd h (by simp)
      · split at h
        · exact absurd h (by simp)
        · split at h
          · simp only [Except.ok.injEq] at h
            subst h
            exact ⟨fun k hk => aget_aset_ne k _ _ hk ex, ⟨_, aget_aset_self _ _ ex⟩⟩
          · exact absurd h (by simp)
  · intro s1 s2 ex raw hrand
    unfold patchScript
    rw [hrand]
    simp only [Option.map_none']

/-- C8 witness: the frame facts instantiated at the concrete run of the
patch script on raw5qR under the identity shuffle stream. -/
theorem c8_patch_frame_witness :
    (∀ k : String, k ≠ "originq_wukong" →
      aget k [("originq_wukong", entryPatchA)] = aget k ([] : List (String × Entry1D))) ∧
    (∃ e, aget "originq_wukong" [("originq_wukong", entryPatchA)] = some e) :=
  c8_patch_frame.1 shufA [] raw5qR [("originq_wukong", entryPatchA)] patchA

/-- C8 counterexample: two successive invocations on the same raw record
and JSON, whose unseeded shuffles happen to differ, produce different
outputs (the random_r fields are two fifths versus three fifths). -/
theorem c8_patch_cex :
    patchScript shufA [] raw5qR ≠ patchScript shufB [] raw5qR := by
  intro h
  rw [patchA, patchB] at h
  simp only [Except.ok.injEq, List.cons.injEq, Prod.mk.injEq, entryPatchA, entryPatchB,
    Entry1D.mk.injEq, Option.some.injEq, and_true, true_and] at h
  norm_num at h
